import Mathlib

/-!
Shallow embedding of the auto-assign pull-request triage bot
(`cmd/main.go`).  PR titles, label names and user logins are modelled as
`List Char`; the external hosting API is modelled by explicit parameters
(pages of results, fetch failures as `Option`, the random shuffle as an
arbitrary permutation of the contributor list).  Each Go handler becomes a
pure function returning an outcome value that records which side effect
(if any) the handler would perform.
-/

namespace AutoAssign

/-- Whitespace test used by Go's `strings.TrimSpace` (`unicode.IsSpace`):
the Unicode White_Space code points. -/
def goIsSpace (c : Char) : Bool :=
  ([9, 10, 11, 12, 13, 32, 133, 160, 5760,
    8192, 8193, 8194, 8195, 8196, 8197, 8198, 8199, 8200, 8201, 8202,
    8232, 8233, 8239, 8287, 12288] : List Nat).contains c.toNat

/-- Character lowercasing used by Go's `strings.ToLower`, restricted to the
ASCII letters (the only case mapping relevant to the label keys; all other
characters are left unchanged, as Go does for non-cased characters). -/
def goToLower : Char → Char
  | 'A' => 'a'
  | 'B' => 'b'
  | 'C' => 'c'
  | 'D' => 'd'
  | 'E' => 'e'
  | 'F' => 'f'
  | 'G' => 'g'
  | 'H' => 'h'
  | 'I' => 'i'
  | 'J' => 'j'
  | 'K' => 'k'
  | 'L' => 'l'
  | 'M' => 'm'
  | 'N' => 'n'
  | 'O' => 'o'
  | 'P' => 'p'
  | 'Q' => 'q'
  | 'R' => 'r'
  | 'S' => 's'
  | 'T' => 't'
  | 'U' => 'u'
  | 'V' => 'v'
  | 'W' => 'w'
  | 'X' => 'x'
  | 'Y' => 'y'
  | 'Z' => 'z'
  | c => c

/-- Bracket characters of the character class in the regular expression
`[\(\[\{<].*$` used by `handleTitleBasedLabel`. -/
def isBracketChar (c : Char) : Bool :=
  c = '(' || c = '[' || c = '{' || c = '<'

/-- Replacement by the regular expression `[\(\[\{<].*$` with the empty
string, under Go's default flags: `.` does not match a newline and `$`
matches only at the end of the text, so the pattern matches exactly at a
bracket character that has no later newline, consuming everything from it
to the end.  The leftmost such bracket wins; when every bracket is
followed by a newline somewhere after it, nothing is replaced. -/
def goBracketStrip : List Char → List Char
  | [] => []
  | c :: cs =>
    if isBracketChar c && !cs.contains '\n' then []
    else c :: goBracketStrip cs

/-- Removal of the longest whitespace suffix (the right half of Go's
`strings.TrimSpace`). -/
def rtrim : List Char → List Char
  | [] => []
  | c :: cs =>
    match rtrim cs with
    | [] => if goIsSpace c then [] else [c]
    | d :: ds => c :: d :: ds

/-- Go's `strings.TrimSpace` on rune lists: drop the longest whitespace
suffix and the longest whitespace run at the front. -/
def trimSpace (l : List Char) : List Char :=
  rtrim (l.dropWhile goIsSpace)

/-- Go's `strings.Split` with a single-character separator (the separator
`"/"` used on `GITHUB_REPOSITORY`): splitting the empty list yields `[[]]`,
matching `strings.Split("", "/") = [""]`. -/
def splitChar (sep : Char) : List Char → List (List Char)
  | [] => [[]]
  | c :: cs =>
    if c = sep then [] :: splitChar sep cs
    else
      match splitChar sep cs with
      | [] => [[c]]
      | h :: t => (c :: h) :: t

/-- Startup validation of the `GITHUB_REPOSITORY` input (`main`, lines
23-31): fatal (`none`) when the variable is empty/absent or when splitting
on `/` does not give exactly two parts; otherwise the `(owner, repo)`
pair.  Go's `os.Getenv` returns `""` for an absent variable, so absence is
the empty list. -/
def validateRepository (repoFull : List Char) : Option (List Char × List Char) :=
  if repoFull = [] then none
  else
    match splitChar '/' repoFull with
    | [a, b] => some (a, b)
    | _ => none

/-- Fixed title-keyword-to-label map of `handleTitleBasedLabel`. -/
def labelMap : List (List Char × List Char) :=
  [("feat".toList, "enhancement".toList),
   ("fix".toList, "bug".toList),
   ("docs".toList, "documentation".toList),
   ("style".toList, "style".toList),
   ("refactor".toList, "refactor".toList),
   ("perf".toList, "performance".toList),
   ("test".toList, "test".toList),
   ("chore".toList, "chore".toList)]

/-- The cleaned leading token of a PR title, after `handleTitleBasedLabel`:
take the part before the first colon (`strings.SplitN(title, ":", 2)[0]`),
trim whitespace, lowercase, then apply the bracket-stripping regular
expression replacement `goBracketStrip`. -/
def cleanedPfx (title : List Char) : List Char :=
  goBracketStrip ((trimSpace (title.takeWhile (fun c => c != ':'))).map goToLower)

/-- Outcome of the title classifier: the two `log.Fatalf` exits, the
already-labeled early return, and the label write. -/
inductive TitleOutcome where
  | fatalNoColon : TitleOutcome
  | fatalNoMatch : List Char → TitleOutcome
  | alreadyLabeled : List Char → TitleOutcome
  | added : List Char → TitleOutcome
deriving DecidableEq

/-- Embeds `handleTitleBasedLabel` (lines 71-113): fatal when the lowercased
title has no colon; fatal when the cleaned leading token has no entry in
`labelMap`; early return when the resolved label is already on the PR;
otherwise one `AddLabelsToIssue` call with the resolved label. -/
def handleTitleBasedLabel (title : List Char) (labels : List (List Char)) : TitleOutcome :=
  if ':' ∈ title.map goToLower then
    match labelMap.lookup (cleanedPfx title) with
    | none => TitleOutcome.fatalNoMatch (cleanedPfx title)
    | some label =>
      if label ∈ labels then TitleOutcome.alreadyLabeled label
      else TitleOutcome.added label
  else TitleOutcome.fatalNoColon

/-- Per-file change counts returned by the list-files endpoint. -/
structure FileChange where
  additions : Nat
  deletions : Nat
deriving DecidableEq

/-- Total of `additions + deletions` accumulated over a list of files
(lines 123-126). -/
def sumChanges (files : List FileChange) : Nat :=
  files.foldl (fun acc f => acc + (f.additions + f.deletions)) 0

/-- The size-to-label chain of `handleDayLabel` (lines 128-135). -/
def classifyDay (totalChanges : Nat) : List Char :=
  if totalChanges < 200 then "D-3".toList
  else if totalChanges < 500 then "D-5".toList
  else "D-7".toList

/-- Test used on existing labels: `strings.HasPrefix(name, "D-")`. -/
def startsWithD (l : List Char) : Bool :=
  ("D-".toList).isPrefixOf l

/-- Outcome of the size classifier: fetch failure (logged, rule aborted),
skip because a `D-` label already exists, or the label write. -/
inductive DayOutcome where
  | fetchFailed : DayOutcome
  | skippedExisting : List Char → DayOutcome
  | added : List Char → DayOutcome
deriving DecidableEq

/-- Embeds `handleDayLabel` (lines 116-151).  The external file collection
is paginated (`pages`); the code performs a single `ListFiles` call with
`nil` options, which returns only the first page, so `totalChanges` is
summed over `pages.headD []`.  `filesResult = none` models a failed call. -/
def handleDayLabel (filesResult : Option (List (List FileChange)))
    (labels : List (List Char)) : DayOutcome :=
  match filesResult with
  | none => DayOutcome.fetchFailed
  | some pages =>
    let dayLabel := classifyDay (sumChanges (pages.headD []))
    match labels.find? startsWithD with
    | some existing => DayOutcome.skippedExisting existing
    | none => DayOutcome.added dayLabel

/-- Contributor pool accumulated by `assignDefaultReviewers` (lines
175-193) over the paginated `ListContributors` walk: logins of every page
in order, skipping any login equal to the PR author's. -/
def contributorPool (author : List Char) (pages : List (List (List Char))) :
    List (List Char) :=
  pages.flatten.filter (fun c => c != author)

/-- Reviewer selection (lines 199-207): when more than 10 contributors were
accumulated the list is shuffled in place (`rand.Shuffle`) and the first 10
are taken, otherwise the whole list is used.  The shuffle result is passed
in as `shuffled`; any permutation of `contributors` is a possible result. -/
def selectReviewers (shuffled : List (List Char)) (contributors : List (List Char)) :
    List (List Char) :=
  if 10 < contributors.length then shuffled.take 10 else contributors

/-- Outcome of the reviewer rule: early return because reviewers are already
requested (before any contributor fetch), the no-contributors log-and-return,
or the single `RequestReviewers` call. -/
inductive ReviewerOutcome where
  | skippedHasReviewers : ReviewerOutcome
  | skippedNoContributors : ReviewerOutcome
  | requested : List (List Char) → ReviewerOutcome
deriving DecidableEq

/-- Embeds `assignDefaultReviewers` (lines 169-218).  The guard on line 194
is written exactly as in Go: `len == 0 || len == 1 && contributors[0] ==
author` (`&&` binds tighter than `||`). -/
def assignDefaultReviewers (requestedReviewers : List (List Char))
    (author : List Char) (pages : List (List (List Char)))
    (shuffled : List (List Char)) : ReviewerOutcome :=
  if requestedReviewers.length ≠ 0 then ReviewerOutcome.skippedHasReviewers
  else
    let contributors := contributorPool author pages
    if contributors.length = 0 ∨
        (contributors.length = 1 ∧ contributors.headD [] = author) then
      ReviewerOutcome.skippedNoContributors
    else
      ReviewerOutcome.requested (selectReviewers shuffled contributors)

end AutoAssign

namespace AutoAssign

/-! Helper lemmas shared by the claim theorems. -/

/-- Lowercasing maps no character other than the colon itself to a colon. -/
theorem goToLower_eq_colon_iff (c : Char) : goToLower c = ':' ↔ c = ':' := by
  unfold goToLower
  split <;> simp_all

/-- A colon survives lowercasing of the whole title, and lowercasing never
introduces one: the code's colon test on the lowercased title agrees with a
colon test on the raw title. -/
theorem colon_mem_map_goToLower (l : List Char) :
    ':' ∈ l.map goToLower ↔ ':' ∈ l := by
  constructor
  · intro h
    obtain ⟨c, hc, he⟩ := List.mem_map.1 h
    rwa [(goToLower_eq_colon_iff c).1 he] at hc
  · intro h
    exact List.mem_map.2 ⟨':', h, by decide⟩

/-- C2: the size classifier maps a total strictly below 200 to `D-3`,
a total in `[200, 500)` to `D-5`, and a total of at least 500 to `D-7`;
both thresholds are exclusive upper bounds, so 200 and 500 themselves fall
into the next bucket. -/
theorem claim_C2_size_thresholds (n : Nat) :
    (classifyDay n = "D-3".toList ↔ n < 200) ∧
    (classifyDay n = "D-5".toList ↔ 200 ≤ n ∧ n < 500) ∧
    (classifyDay n = "D-7".toList ↔ 500 ≤ n) := by
  unfold classifyDay
  split_ifs with h1 h2 <;>
    refine ⟨⟨fun he => ?_, fun hn => ?_⟩, ⟨fun he => ?_, fun hn => ?_⟩,
      ⟨fun he => ?_, fun hn => ?_⟩⟩ <;>
    first
      | rfl
      | omega
      | (exact absurd he (by decide))

/-- C5: a PR title containing no colon makes the title classifier abort the
run fatally, whatever the rest of the title and the existing labels. -/
theorem claim_C5_no_colon_fatal (title : List Char) (labels : List (List Char))
    (h : ':' ∉ title) :
    handleTitleBasedLabel title labels = TitleOutcome.fatalNoColon := by
  unfold handleTitleBasedLabel
  rw [if_neg]
  intro hmem
  exact h ((colon_mem_map_goToLower title).1 hmem)

/-- Witness for C5 at the concrete title `"add feature"`. -/
theorem claim_C5_witness :
    ':' ∉ "add feature".toList ∧
      handleTitleBasedLabel "add feature".toList [] = TitleOutcome.fatalNoColon :=
  ⟨by decide, claim_C5_no_colon_fatal "add feature".toList [] (by decide)⟩

/-- C10: a title that does contain a colon but whose cleaned leading token is
empty (for example a title starting with `:` or with a bracket) is fatal,
because the empty token has no entry in the label map. -/
theorem claim_C10_empty_token_fatal (title : List Char) (labels : List (List Char))
    (hc : ':' ∈ title) (he : cleanedPfx title = []) :
    handleTitleBasedLabel title labels = TitleOutcome.fatalNoMatch [] := by
  unfold handleTitleBasedLabel
  rw [if_pos ((colon_mem_map_goToLower title).2 hc), he]
  rfl

/-- Witness for C10 at the concrete title `": y"`. -/
theorem claim_C10_witness :
    ':' ∈ ": y".toList ∧ cleanedPfx ": y".toList = [] ∧
      handleTitleBasedLabel ": y".toList [] = TitleOutcome.fatalNoMatch [] :=
  ⟨by decide, by decide,
    claim_C10_empty_token_fatal ": y".toList [] (by decide) (by decide)⟩

end AutoAssign

namespace AutoAssign

/-- C7: whenever some existing label starts with `D-`, the size classifier
never issues a label write, regardless of the fetched file list (and hence
regardless of `totalChanges`). -/
theorem claim_C7_day_label_oneshot (filesResult : Option (List (List FileChange)))
    (labels : List (List Char)) (l : List Char) (hl : l ∈ labels)
    (hd : startsWithD l = true) (lab : List Char) :
    handleDayLabel filesResult labels ≠ DayOutcome.added lab := by
  cases filesResult with
  | none => simp [handleDayLabel]
  | some pages =>
    cases hf : labels.find? startsWithD with
    | none =>
      rw [List.find?_eq_none] at hf
      exact absurd hd (hf l hl)
    | some existing =>
      simp [handleDayLabel, hf]

/-- Witness for C7: a PR already labeled `D-3` with 600 changed lines is not
relabeled. -/
theorem claim_C7_witness :
    "D-3".toList ∈ ["D-3".toList] ∧ startsWithD "D-3".toList = true ∧
      handleDayLabel (some [[⟨300, 300⟩]]) ["D-3".toList] ≠
        DayOutcome.added "D-7".toList :=
  ⟨by decide, by decide,
    claim_C7_day_label_oneshot (some [[⟨300, 300⟩]]) ["D-3".toList]
      "D-3".toList (by decide) (by decide) "D-7".toList⟩

/-- C8: when the PR already has requested reviewers, the reviewer rule
returns before the contributor walk; the outcome is the early skip and is
independent of the contributor pages and of the shuffle (so no write call
and no contributor fetch occurs). -/
theorem claim_C8_reviewers_noop (requestedReviewers : List (List Char))
    (author : List Char) (pages : List (List (List Char)))
    (shuffled : List (List Char)) (h : requestedReviewers ≠ []) :
    assignDefaultReviewers requestedReviewers author pages shuffled =
      ReviewerOutcome.skippedHasReviewers := by
  unfold assignDefaultReviewers
  rw [if_pos]
  exact fun h0 => h (List.length_eq_zero.mp h0)

/-- Witness for C8 with one requested reviewer. -/
theorem claim_C8_witness :
    ["carol".toList] ≠ ([] : List (List Char)) ∧
      assignDefaultReviewers ["carol".toList] "alice".toList
        [["bob".toList]] [] = ReviewerOutcome.skippedHasReviewers :=
  ⟨by decide,
    claim_C8_reviewers_noop ["carol".toList] "alice".toList
      [["bob".toList]] [] (by decide)⟩

/-- C1 counterexample: the code issues a single `ListFiles` call with `nil`
options and never walks later pages, so with two pages of changed files
(200 changed lines on the first, 400 on the second) it labels the PR `D-5`
from the first page alone, while the claimed full total of 600 would demand
`D-7`. -/
theorem claim_C1_counterexample :
    sumChanges ([[⟨100, 100⟩], [⟨200, 200⟩]] : List (List FileChange)).flatten = 600 ∧
      handleDayLabel (some [[⟨100, 100⟩], [⟨200, 200⟩]]) [] =
        DayOutcome.added "D-5".toList ∧
      classifyDay 600 = "D-7".toList := by
  decide

/-- C1 amended: `totalChanges` is summed over the files returned by the
single unpaginated `ListFiles` call, i.e. over the first page only; when
the changed-file collection fits into one page this equals the sum over
the full collection and the selected label is determined by it. -/
theorem claim_C1_amended (pages : List (List FileChange)) (labels : List (List Char))
    (h1 : pages.length ≤ 1) :
    sumChanges (pages.headD []) = sumChanges pages.flatten ∧
      (labels.find? startsWithD = none →
        handleDayLabel (some pages) labels =
          DayOutcome.added (classifyDay (sumChanges pages.flatten))) := by
  have he : pages.headD [] = pages.flatten := by
    match pages with
    | [] => rfl
    | [p] => simp
    | p :: q :: t => simp at h1
  refine ⟨by rw [he], fun hf => ?_⟩
  simp only [handleDayLabel, hf, he]

/-- Witness for C1 amended: a one-page collection with 15 changed lines. -/
theorem claim_C1_witness :
    ([[⟨10, 5⟩]] : List (List FileChange)).length ≤ 1 ∧
      sumChanges (([[⟨10, 5⟩]] : List (List FileChange)).headD []) =
        sumChanges ([[⟨10, 5⟩]] : List (List FileChange)).flatten ∧
      handleDayLabel (some [[⟨10, 5⟩]]) [] =
        DayOutcome.added (classifyDay
          (sumChanges ([[⟨10, 5⟩]] : List (List FileChange)).flatten)) :=
  ⟨by decide, (claim_C1_amended [[⟨10, 5⟩]] [] (by decide)).1,
    (claim_C1_amended [[⟨10, 5⟩]] [] (by decide)).2 (by decide)⟩

/-- Splitting a list that does not contain the separator yields the single
chunk equal to the list. -/
theorem splitChar_of_not_mem (sep : Char) (l : List Char) (h : sep ∉ l) :
    splitChar sep l = [l] := by
  induction l with
  | nil => rfl
  | cons c cs ih =>
    have hc : ¬c = sep := fun he => h (he ▸ List.mem_cons_self c cs)
    have hcs : sep ∉ cs := fun hm => h (List.mem_cons_of_mem c hm)
    simp only [splitChar, if_neg hc, ih hcs]

/-- Splitting `a ++ sep :: r` where `a` is separator-free peels off `a` as
the first chunk. -/
theorem splitChar_append (sep : Char) (a r : List Char) (h : sep ∉ a) :
    splitChar sep (a ++ sep :: r) = a :: splitChar sep r := by
  induction a with
  | nil => simp [splitChar]
  | cons c cs ih =>
    have hc : ¬c = sep := fun he => h (he ▸ List.mem_cons_self c cs)
    have hcs : sep ∉ cs := fun hm => h (List.mem_cons_of_mem c hm)
    rw [List.cons_append]
    simp only [splitChar, if_neg hc, ih hcs]

end AutoAssign

namespace AutoAssign

/-- C3 counterexample: the code only checks that splitting on `/` yields
exactly two parts and never checks them for non-emptiness, so the
malformed identifier `"owner/"` (empty name part) passes validation
instead of failing fatally. -/
theorem claim_C3_counterexample :
    validateRepository "owner/".toList ≠ none ∧
      validateRepository "owner/".toList = some ("owner".toList, []) := by
  decide

/-- C3 amended: startup validation fails fatally exactly when the
repository identifier is absent (empty) or does not split into exactly two
parts on `/`; the two parts are not required to be non-empty, so
identifiers with an empty owner or name part are accepted. -/
theorem claim_C3_amended :
    validateRepository [] = none ∧
      (∀ a b : List Char, '/' ∉ a → '/' ∉ b →
        validateRepository (a ++ '/' :: b) = some (a, b)) ∧
      (∀ s : List Char, s ≠ [] → (splitChar '/' s).length ≠ 2 →
        validateRepository s = none) := by
  refine ⟨rfl, fun a b ha hb => ?_, fun s hs hlen => ?_⟩
  · unfold validateRepository
    rw [if_neg (by simp), splitChar_append '/' a b ha, splitChar_of_not_mem '/' b hb]
  · unfold validateRepository
    rw [if_neg hs]
    rcases h : splitChar '/' s with _ | ⟨x, _ | ⟨y, _ | ⟨z, t⟩⟩⟩
    · rfl
    · rfl
    · rw [h] at hlen; simp at hlen
    · rfl

/-- Witness for C3 amended: `"o/"` is accepted with an empty name part, and
`"a/b/c"` (three parts) is rejected. -/
theorem claim_C3_witness :
    validateRepository (['o'] ++ '/' :: []) = some (['o'], []) ∧
      validateRepository "a/b/c".toList = none :=
  ⟨claim_C3_amended.2.1 ['o'] [] (by decide) (by decide),
    claim_C3_amended.2.2 "a/b/c".toList (by decide) (by decide)⟩

/-- C9: the contributor pool built by the reviewer rule never contains the
PR author (the author is filtered out while the pages are walked), so the
singleton guard comparing `contributors[0]` to the author never fires, and
a pool holding exactly one non-author login leads to a reviewer request
for exactly that login. -/
theorem claim_C9_author_excluded (author : List Char)
    (pages : List (List (List Char))) (shuffled : List (List Char))
    (x : List Char) :
    author ∉ contributorPool author pages ∧
      (contributorPool author pages = [x] →
        assignDefaultReviewers [] author pages shuffled =
          ReviewerOutcome.requested [x]) := by
  constructor
  · intro hmem
    have := List.of_mem_filter hmem
    simp at this
  · intro hpool
    have hx : x ∈ contributorPool author pages := by
      rw [hpool]; exact List.mem_singleton_self x
    have hxa : x ≠ author := by
      have := List.of_mem_filter hx
      simpa using this
    simp only [assignDefaultReviewers, selectReviewers, hpool]
    simp [hxa]

/-- Witness for C9: author `"alice"`, one contributor page `["alice", "bob"]`,
pool `["bob"]`. -/
theorem claim_C9_witness :
    "alice".toList ∉ contributorPool "alice".toList [["alice".toList, "bob".toList]] ∧
      contributorPool "alice".toList [["alice".toList, "bob".toList]] = ["bob".toList] ∧
      assignDefaultReviewers [] "alice".toList [["alice".toList, "bob".toList]] [] =
        ReviewerOutcome.requested ["bob".toList] :=
  ⟨(claim_C9_author_excluded "alice".toList [["alice".toList, "bob".toList]] []
      "bob".toList).1,
   by decide,
   (claim_C9_author_excluded "alice".toList [["alice".toList, "bob".toList]] []
      "bob".toList).2 (by decide)⟩

end AutoAssign

namespace AutoAssign

/-- The no-contributors guard of `assignDefaultReviewers` is false whenever
the accumulated pool is non-empty: its second disjunct compares the single
pool element with the author, but the author was already filtered out. -/
theorem reviewer_guard_false (author : List Char) (pages : List (List (List Char)))
    (h : contributorPool author pages ≠ []) :
    ¬((contributorPool author pages).length = 0 ∨
      ((contributorPool author pages).length = 1 ∧
        (contributorPool author pages).headD [] = author)) := by
  rintro (h0 | ⟨h1, h2⟩)
  · exact h (List.length_eq_zero.mp h0)
  · obtain ⟨y, hy⟩ := List.length_eq_one.mp h1
    have hmem : y ∈ contributorPool author pages := by
      rw [hy]; exact List.mem_singleton_self y
    rw [hy] at h2
    simp only [List.headD_cons] at h2
    subst h2
    have := List.of_mem_filter hmem
    simp at this

/-- With no requested reviewers and a non-empty pool, the rule always
reaches the single `RequestReviewers` call with the selected reviewers. -/
theorem assign_requested (author : List Char) (pages : List (List (List Char)))
    (shuffled : List (List Char)) (h : contributorPool author pages ≠ []) :
    assignDefaultReviewers [] author pages shuffled =
      ReviewerOutcome.requested (selectReviewers shuffled (contributorPool author pages)) := by
  simp only [assignDefaultReviewers]
  rw [if_neg (by simp), if_neg (reviewer_guard_false author pages h)]

/-- C4: assume the accumulated pool (author excluded) has no duplicates and
let `shuffled` be any permutation of it (the result of `rand.Shuffle`).
When the pool holds more than 10 logins the request carries exactly the
first 10 of the shuffle: 10 pairwise-distinct logins, each from the pool.
When the pool holds at most 10 logins and is non-empty the request carries
exactly the whole pool. -/
theorem claim_C4_reviewer_sampling (author : List Char)
    (pages : List (List (List Char))) (shuffled : List (List Char))
    (hnd : (contributorPool author pages).Nodup)
    (hperm : shuffled.Perm (contributorPool author pages)) :
    (10 < (contributorPool author pages).length →
      assignDefaultReviewers [] author pages shuffled =
        ReviewerOutcome.requested (shuffled.take 10) ∧
      (shuffled.take 10).length = 10 ∧ (shuffled.take 10).Nodup ∧
      ∀ x ∈ shuffled.take 10, x ∈ contributorPool author pages) ∧
    ((contributorPool author pages).length ≤ 10 →
      contributorPool author pages ≠ [] →
      assignDefaultReviewers [] author pages shuffled =
        ReviewerOutcome.requested (contributorPool author pages)) := by
  constructor
  · intro hgt
    have hne : contributorPool author pages ≠ [] := by
      intro h0; rw [h0] at hgt; simp at hgt
    have hsel : selectReviewers shuffled (contributorPool author pages) =
        shuffled.take 10 := by
      unfold selectReviewers; rw [if_pos hgt]
    refine ⟨by rw [assign_requested author pages shuffled hne, hsel], ?_, ?_, ?_⟩
    · rw [List.length_take, hperm.length_eq]
      omega
    · exact (List.take_sublist 10 shuffled).nodup (hperm.nodup_iff.mpr hnd)
    · intro x hx
      exact hperm.mem_iff.mp (List.mem_of_mem_take hx)
  · intro hle hne
    rw [assign_requested author pages shuffled hne]
    unfold selectReviewers
    rw [if_neg (by omega)]

/-- Witness for C4: author `a` and a single contributor page with the author
plus 15 distinct logins, shuffled by the identity permutation; the request
carries the first 10. -/
theorem claim_C4_witness :
    (contributorPool ['a'] [[['a'], ['b'], ['c'], ['d'], ['e'], ['f'], ['g'],
        ['h'], ['i'], ['j'], ['k'], ['l'], ['m'], ['n'], ['o'], ['p']]]).Nodup ∧
    10 < (contributorPool ['a'] [[['a'], ['b'], ['c'], ['d'], ['e'], ['f'], ['g'],
        ['h'], ['i'], ['j'], ['k'], ['l'], ['m'], ['n'], ['o'], ['p']]]).length ∧
    (assignDefaultReviewers [] ['a'] [[['a'], ['b'], ['c'], ['d'], ['e'], ['f'], ['g'],
        ['h'], ['i'], ['j'], ['k'], ['l'], ['m'], ['n'], ['o'], ['p']]]
        (contributorPool ['a'] [[['a'], ['b'], ['c'], ['d'], ['e'], ['f'], ['g'],
          ['h'], ['i'], ['j'], ['k'], ['l'], ['m'], ['n'], ['o'], ['p']]]) =
      ReviewerOutcome.requested ((contributorPool ['a'] [[['a'], ['b'], ['c'], ['d'],
        ['e'], ['f'], ['g'], ['h'], ['i'], ['j'], ['k'], ['l'], ['m'], ['n'], ['o'],
        ['p']]]).take 10) ∧
      ((contributorPool ['a'] [[['a'], ['b'], ['c'], ['d'], ['e'], ['f'], ['g'],
        ['h'], ['i'], ['j'], ['k'], ['l'], ['m'], ['n'], ['o'], ['p']]]).take 10).length = 10 ∧
      ((contributorPool ['a'] [[['a'], ['b'], ['c'], ['d'], ['e'], ['f'], ['g'],
        ['h'], ['i'], ['j'], ['k'], ['l'], ['m'], ['n'], ['o'], ['p']]]).take 10).Nodup ∧
      ∀ x ∈ (contributorPool ['a'] [[['a'], ['b'], ['c'], ['d'], ['e'], ['f'], ['g'],
        ['h'], ['i'], ['j'], ['k'], ['l'], ['m'], ['n'], ['o'], ['p']]]).take 10,
        x ∈ contributorPool ['a'] [[['a'], ['b'], ['c'], ['d'], ['e'], ['f'], ['g'],
          ['h'], ['i'], ['j'], ['k'], ['l'], ['m'], ['n'], ['o'], ['p']]]) :=
  ⟨by decide, by decide,
    (claim_C4_reviewer_sampling ['a']
      [[['a'], ['b'], ['c'], ['d'], ['e'], ['f'], ['g'], ['h'], ['i'], ['j'], ['k'],
        ['l'], ['m'], ['n'], ['o'], ['p']]]
      (contributorPool ['a'] [[['a'], ['b'], ['c'], ['d'], ['e'], ['f'], ['g'],
        ['h'], ['i'], ['j'], ['k'], ['l'], ['m'], ['n'], ['o'], ['p']]])
      (by decide) (List.Perm.refl _)).1 (by decide)⟩

end AutoAssign

namespace AutoAssign

/-- A `takeWhile` over an append stops inside the left part as soon as the
left part contains an element failing the predicate. -/
theorem takeWhile_append_left {α : Type} (p : α → Bool) (l1 l2 : List α)
    (x : α) (hx : x ∈ l1) (hpx : p x = false) :
    (l1 ++ l2).takeWhile p = l1.takeWhile p := by
  induction l1 with
  | nil => cases hx
  | cons c cs ih =>
    cases hpc : p c with
    | false =>
      rw [List.cons_append, List.takeWhile_cons_of_neg (by simp [hpc]),
        List.takeWhile_cons_of_neg (by simp [hpc])]
    | true =>
      rcases List.mem_cons.mp hx with he | hm
      · subst he; rw [hpc] at hpx; cases hpx
      · rw [List.cons_append, List.takeWhile_cons_of_pos hpc,
          List.takeWhile_cons_of_pos hpc, ih hm]

/-- Lowercasing maps no character other than the newline itself to a
newline. -/
theorem goToLower_eq_newline_iff (c : Char) : goToLower c = '\n' ↔ c = '\n' := by
  unfold goToLower
  split <;> simp_all

/-- A newline survives lowercasing of the token and lowercasing never
introduces one, so the regular expression's newline sensitivity is the
same before and after the lowercase step. -/
theorem newline_mem_map_goToLower (l : List Char) :
    '\n' ∈ l.map goToLower ↔ '\n' ∈ l := by
  constructor
  · intro h
    obtain ⟨c, hc, he⟩ := List.mem_map.1 h
    rwa [(goToLower_eq_newline_iff c).1 he] at hc
  · intro h
    exact List.mem_map.2 ⟨'\n', h, by decide⟩

/-- Prepending a non-whitespace character commutes with right trimming. -/
theorem rtrim_cons_of_nonspace (c : Char) (l : List Char) (h : goIsSpace c = false) :
    rtrim (c :: l) = c :: rtrim l := by
  rw [rtrim]
  cases hl : rtrim l with
  | nil => rw [if_neg (by simp [h])]
  | cons d ds => rfl

/-- Right trimming a list of whitespace gives the empty list. -/
theorem rtrim_eq_nil_of_all (l : List Char) (h : ∀ c ∈ l, goIsSpace c = true) :
    rtrim l = [] := by
  induction l with
  | nil => rfl
  | cons c cs ih =>
    rw [rtrim, ih fun a ha => h a (List.mem_cons_of_mem c ha),
      if_pos (h c (List.mem_cons_self c cs))]

/-- Right trimming only touches the right end: it distributes over an
append whose right part does not trim to nothing. -/
theorem rtrim_append (L M : List Char) (h : rtrim M ≠ []) :
    rtrim (L ++ M) = L ++ rtrim M := by
  induction L with
  | nil => rfl
  | cons c L ih =>
    have hne : L ++ rtrim M ≠ [] := fun h0 => h (List.append_eq_nil.mp h0).2
    obtain ⟨d, ds, hLM⟩ := List.exists_cons_of_ne_nil hne
    rw [List.cons_append, List.cons_append, rtrim, ih, hLM]

/-- A list fixed by right trimming has a tail fixed by right trimming. -/
theorem rtrim_fix_tail (c : Char) (cs : List Char) (h : rtrim (c :: cs) = c :: cs) :
    rtrim cs = cs := by
  rw [rtrim] at h
  cases hcs : rtrim cs with
  | nil =>
    rw [hcs] at h
    change (if goIsSpace c = true then [] else [c]) = c :: cs at h
    split_ifs at h with hsp
    all_goals cases h
    all_goals rfl
  | cons d ds =>
    rw [hcs] at h
    change c :: d :: ds = c :: cs at h
    exact (List.cons_eq_cons.mp h).2

/-- Left trimming preserves being fixed by right trimming. -/
theorem rtrim_dropWhile_of_fix (P : List Char) (h : rtrim P = P) :
    rtrim (P.dropWhile goIsSpace) = P.dropWhile goIsSpace := by
  induction P with
  | nil => rfl
  | cons c cs ih =>
    cases hc : goIsSpace c with
    | true =>
      rw [List.dropWhile_cons_of_pos hc]
      exact ih (rtrim_fix_tail c cs h)
    | false =>
      rw [List.dropWhile_cons_of_neg (by simp [hc])]
      exact h

/-- Right trimming removes a suffix, so its elements come from the list. -/
theorem mem_rtrim (x : Char) (l : List Char) (h : x ∈ rtrim l) : x ∈ l := by
  induction l with
  | nil => cases h
  | cons c cs ih =>
    rw [rtrim] at h
    cases hcs : rtrim cs with
    | nil =>
      rw [hcs] at h
      change x ∈ (if goIsSpace c = true then [] else [c]) at h
      split_ifs at h with hsp
      · cases h
      · rw [List.mem_singleton] at h
        subst h
        exact List.mem_cons_self _ _
    | cons d ds =>
      rw [hcs] at h
      change x ∈ c :: d :: ds at h
      rcases List.mem_cons.mp h with he | hm
      · subst he
        exact List.mem_cons_self _ _
      · refine List.mem_cons_of_mem c (ih ?_)
        rw [hcs]
        exact hm

/-- Key regular-expression law: appending `'(' :: M` with a newline-free `M`
does not change the replacement result on the left part, because the added
`(` matches (no newline follows it), so a bracket of `L` is the leftmost
match point exactly when it has no later newline within `L` — the same
condition as for `L` alone — and when `L` has no such bracket the cut
happens exactly at the added `(`. -/
theorem strip_append_bracket (L M : List Char) (hM : '\n' ∉ M) :
    goBracketStrip (L ++ '(' :: M) = goBracketStrip L := by
  induction L with
  | nil =>
    rw [List.nil_append, goBracketStrip]
    change (if (isBracketChar '(' && !M.contains '\n') = true then []
        else '(' :: goBracketStrip M) = []
    rw [if_pos (by simp [isBracketChar, hM])]
  | cons c L ih =>
    rw [List.cons_append]
    change (if (isBracketChar c && !(L ++ '(' :: M).contains '\n') = true then []
        else c :: goBracketStrip (L ++ '(' :: M)) =
      (if (isBracketChar c && !L.contains '\n') = true then []
        else c :: goBracketStrip L)
    have hmem : ('\n' ∈ L ++ '(' :: M) ↔ '\n' ∈ L := by
      simp [List.mem_append, List.mem_cons, hM]
    have hcont : ((L ++ '(' :: M).contains '\n') = (L.contains '\n') := by
      simp [List.elem_eq_mem, hmem]
    rw [hcont, ih]

end AutoAssign

namespace AutoAssign

/-- Core of the scoped-title law: appending `'(' :: S` to a token fixed by
right trimming does not change the cleaned form, as long as `S` contains no
newline (so that the added `(` is a possible match point for the regular
expression). -/
theorem cleaned_append_bracket (P S : List Char) (hP : rtrim P = P)
    (hS : '\n' ∉ S) :
    goBracketStrip ((trimSpace (P ++ '(' :: S)).map goToLower) =
      goBracketStrip ((trimSpace P).map goToLower) := by
  have hM : '\n' ∉ (rtrim S).map goToLower := by
    intro hmem
    exact hS (mem_rtrim _ _ ((newline_mem_map_goToLower _).mp hmem))
  by_cases hall : ∀ c ∈ P, goIsSpace c = true
  · have hPnil : P = [] := by
      have h0 := rtrim_eq_nil_of_all P hall
      rw [hP] at h0
      exact h0
    subst hPnil
    rw [List.nil_append]
    unfold trimSpace
    rw [List.dropWhile_cons_of_neg (by decide), rtrim_cons_of_nonspace '(' S (by decide),
      List.map_cons, (by decide : goToLower '(' = '('), goBracketStrip,
      if_pos (by simp [isBracketChar, hM])]
    rfl
  · have hP' : P.dropWhile goIsSpace ≠ [] := by
      intro h0
      exact hall (List.dropWhile_eq_nil_iff.mp h0)
    have htrimP : trimSpace P = P.dropWhile goIsSpace :=
      rtrim_dropWhile_of_fix P hP
    have hdw : (P ++ '(' :: S).dropWhile goIsSpace = P.dropWhile goIsSpace ++ '(' :: S := by
      rw [List.dropWhile_append, if_neg (by simp [hP'])]
    have hrt : rtrim (P.dropWhile goIsSpace ++ '(' :: S) =
        P.dropWhile goIsSpace ++ '(' :: rtrim S := by
      rw [rtrim_append _ _ (by rw [rtrim_cons_of_nonspace '(' S (by decide)]; simp),
        rtrim_cons_of_nonspace '(' S (by decide)]
    have htrim1 : trimSpace (P ++ '(' :: S) = P.dropWhile goIsSpace ++ '(' :: rtrim S := by
      unfold trimSpace
      rw [hdw, hrt]
    rw [htrim1, htrimP, List.map_append, List.map_cons,
      (by decide : goToLower '(' = '(')]
    exact strip_append_bracket _ _ hM

end AutoAssign

namespace AutoAssign

/-- Scoped and unscoped titles produce the same cleaned token, provided the
written token `P` carries no trailing whitespace and the bracket content
`A` contains no newline. -/
theorem cleanedPfx_paren (P A R : List Char) (hP : rtrim P = P)
    (hA : '\n' ∉ A) :
    cleanedPfx (P ++ '(' :: (A ++ ')' :: ':' :: R)) = cleanedPfx (P ++ ':' :: R) := by
  by_cases hc : ':' ∈ P
  · unfold cleanedPfx
    rw [takeWhile_append_left _ _ _ ':' hc (by decide),
      takeWhile_append_left _ _ _ ':' hc (by decide)]
  · have hallP : ∀ c ∈ P, (c != ':') = true := by
      intro c hcP
      simp only [bne_iff_ne, ne_eq]
      intro he
      exact hc (he ▸ hcP)
    have hS : '\n' ∉ (A ++ ')' :: ':' :: R).takeWhile (fun c => c != ':') := by
      by_cases hcA : ':' ∈ A
      · rw [takeWhile_append_left _ _ _ ':' hcA (by decide)]
        intro hmem
        exact hA (List.takeWhile_subset _ hmem)
      · have hallA : ∀ c ∈ A, (c != ':') = true := by
          intro c hcA2
          simp only [bne_iff_ne, ne_eq]
          intro he
          exact hcA (he ▸ hcA2)
        rw [List.takeWhile_append_of_pos hallA,
          List.takeWhile_cons_of_pos (by decide),
          List.takeWhile_cons_of_neg (by decide)]
        intro hmem
        rcases List.mem_append.mp hmem with h1 | h1
        · exact hA h1
        · rw [List.mem_singleton] at h1
          exact absurd h1 (by decide)
    unfold cleanedPfx
    rw [List.takeWhile_append_of_pos hallP, List.takeWhile_append_of_pos hallP,
      List.takeWhile_cons_of_pos (by decide), List.takeWhile_cons_of_neg (by decide),
      List.append_nil]
    exact cleaned_append_bracket P _ hP hS

/-- C6 counterexample, two independent instances of the claimed forms on
which the law fails.  First, written token `"feat "` (trailing space),
bracket content `"x"`, rest `" y"`: the title `"feat (x): y"` aborts
fatally with the unmatched token `"feat "` (the trim step runs before the
bracket strip, so the space before the bracket survives) while
`"feat : y"` resolves `enhancement`.  Second, written token `"feat"`,
bracket content `"x\ny"` (containing a newline), rest `" r"`: in
`"feat(x\ny): r"` the regular expression finds no match (the only bracket
is followed by a newline, which `.` cannot cross on the way to the
end-of-text anchor `$`), the token stays `"feat(x\ny)"` and the run aborts
fatally, while `"feat: r"` resolves `enhancement`. -/
theorem claim_C6_counterexample :
    ("feat (x): y".toList =
        "feat ".toList ++ '(' :: ("x".toList ++ ')' :: ':' :: " y".toList) ∧
      "feat : y".toList = "feat ".toList ++ ':' :: " y".toList ∧
      handleTitleBasedLabel "feat (x): y".toList [] =
        TitleOutcome.fatalNoMatch "feat ".toList ∧
      handleTitleBasedLabel "feat : y".toList [] =
        TitleOutcome.added "enhancement".toList) ∧
    ("feat(x\ny): r".toList =
        "feat".toList ++ '(' :: ("x\ny".toList ++ ')' :: ':' :: " r".toList) ∧
      "feat: r".toList = "feat".toList ++ ':' :: " r".toList ∧
      handleTitleBasedLabel "feat(x\ny): r".toList [] =
        TitleOutcome.fatalNoMatch "feat(x\ny)".toList ∧
      handleTitleBasedLabel "feat: r".toList [] =
        TitleOutcome.added "enhancement".toList) := by
  decide

/-- C6 amended: for every title of the form `<tok>(<anything>): rest` in
which the written token `<tok>` has no trailing whitespace and the bracket
content contains no newline, the title classifier behaves exactly as on
`<tok>: rest`: bracket content is ignored and matching is on the trimmed,
lowercased token.  (Without the trailing-whitespace restriction the trim
step keeps the space standing before the bracket, and with a newline in
the bracket content the regular expression strips nothing; both failures
are in the counterexample.) -/
theorem claim_C6_scoped_title (P A R : List Char) (labels : List (List Char))
    (hP : rtrim P = P) (hA : '\n' ∉ A) :
    handleTitleBasedLabel (P ++ '(' :: (A ++ ')' :: ':' :: R)) labels =
      handleTitleBasedLabel (P ++ ':' :: R) labels := by
  have hc1 : ':' ∈ (P ++ '(' :: (A ++ ')' :: ':' :: R)).map goToLower :=
    (colon_mem_map_goToLower _).2 (by simp)
  have hc2 : ':' ∈ (P ++ ':' :: R).map goToLower :=
    (colon_mem_map_goToLower _).2 (by simp)
  unfold handleTitleBasedLabel
  rw [if_pos hc1, if_pos hc2, cleanedPfx_paren P A R hP hA]

/-- Witness for C6 amended: `"feat(api): ok"` resolves like `"feat: ok"`. -/
theorem claim_C6_witness :
    rtrim "feat".toList = "feat".toList ∧ '\n' ∉ "api".toList ∧
      handleTitleBasedLabel
          ("feat".toList ++ '(' :: ("api".toList ++ ')' :: ':' :: " ok".toList)) [] =
        handleTitleBasedLabel ("feat".toList ++ ':' :: " ok".toList) [] :=
  ⟨by decide, by decide,
    claim_C6_scoped_title "feat".toList "api".toList " ok".toList []
      (by decide) (by decide)⟩

end AutoAssign

namespace AutoAssign

/-- Witness for C2 at the boundary value 200, which falls into the `D-5`
bucket. -/
theorem claim_C2_witness :
    classifyDay 200 = "D-5".toList ↔ 200 ≤ 200 ∧ 200 < 500 :=
  (claim_C2_size_thresholds 200).2.1

end AutoAssign
